import Mathlib

/-!
Verification of the breakout-candidate detection pipeline
(`src/pipelines/breakout_detection.py`) and its output table's upsert
semantics (`src/db/models/nba/breakout_candidates.py`).

The Python code is shallowly embedded: database tables become lists of
records, dates become integers (day numbers), Python floats become exact
rationals (`ℚ`), SQL queries become list filters with the same predicates,
and the write side (`BreakoutCandidate.upsert`, keyed on
`(beneficiary_player_id, as_of_date)`) becomes an explicit replace-or-append
operation on a list of rows.  `round(x, 1)` is modelled as exact
round-half-to-even on rationals (Python's rounding rule, ignoring binary
float representation).
-/

/-! ## Tunable constants (module-level constants of the source file) -/

def PROMINENT_MIN_THRESHOLD : ℚ := 28
def PROMINENT_MIN_GP : ℕ := 20
def TEAMMATE_MIN_THRESHOLD : ℚ := 12
def TEAMMATE_MIN_GP : ℕ := 10
def HIGH_USAGE_MULTIPLIER : ℚ := 1.25
def HIGH_USAGE_MIN_FLOOR : ℚ := 20
def MIN_OPP_SAMPLES : ℕ := 2

/-- `DEPTH_RANK_BONUSES.get(depth_rank, 4)`: the dict `{1:35, 2:25, 3:15, 4:8}`
with default `4` for any other rank. -/
def depthRankBonus (rank : ℕ) : ℚ :=
  if rank = 1 then 35
  else if rank = 2 then 25
  else if rank = 3 then 15
  else if rank = 4 then 8
  else 4

/-- `POSITION_ADJACENCY`: maps a position to the set of positions in the same
rotation group; a key that is absent maps to the empty set (`dict.get`
default). -/
def positionAdjacency (pos : String) : List String :=
  if pos = "PG" then ["PG", "SG", "G"]
  else if pos = "SG" then ["SG", "PG", "SF", "G"]
  else if pos = "SF" then ["SF", "SG", "PF", "F"]
  else if pos = "PF" then ["PF", "SF", "C", "F"]
  else if pos = "C" then ["C", "PF"]
  else if pos = "G" then ["PG", "SG", "G"]
  else if pos = "F" then ["SF", "PF", "F"]
  else []

/-- The fallback used by `_build_position_depth_chart` when the injured
player's position has no adjacency set: every canonical position. -/
def allPositions : List String := ["PG", "SG", "SF", "PF", "C", "G", "F"]

/-! ## Data model (rows of the tables the pipeline reads and writes) -/

/-- One row of `nba.player_game_stats` as the pipeline reads it. -/
structure GameStat where
  player : ℕ
  team : String
  game_date : ℤ
  min : ℚ
  fpts : ℚ
  deriving DecidableEq, Repr

/-- One row of `nba.player_injuries`. -/
structure InjuryRow where
  player : ℕ
  report_date : ℤ
  status : String
  expected_return : Option ℤ
  deriving DecidableEq, Repr

/-- One row of `nba.player_season_stats` (with the columns the pipeline uses:
`min` and `fpts` are season totals, `gp` games played). -/
structure SeasonRow where
  player : ℕ
  team : String
  as_of_date : ℤ
  gp : ℕ
  minTot : ℚ
  fptsTot : ℚ
  deriving DecidableEq, Repr

/-- One row of `nba.players` (the columns used: id, name, position). -/
structure PlayerRow where
  id : ℕ
  name : String
  position : Option String
  deriving DecidableEq, Repr

/-- The read-side database snapshot the pipeline works against. -/
structure DB where
  injuries : List InjuryRow
  seasonStats : List SeasonRow
  players : List PlayerRow
  gameStats : List GameStat
  deriving DecidableEq, Repr

/-- The dict built per prominent injured player in
`_get_prominent_injured_players`. -/
structure InjuredInfo where
  player_id : ℕ
  name : String
  team_id : String
  position : String
  avg_min : ℚ
  avg_fpts : ℚ
  gp : ℕ
  status : String
  expected_return : Option ℤ
  deriving DecidableEq, Repr

/-- The dict built per depth-chart candidate in `_build_position_depth_chart`
(`depth_rank` is assigned after sorting). -/
structure ChartEntry where
  player_id : ℕ
  name : String
  position : String
  avg_min : ℚ
  avg_fpts : ℚ
  gp : ℕ
  depth_rank : ℕ
  deriving DecidableEq, Repr

/-! ## Guarded averages and small lookups -/

/-- `stats.min / stats.gp if stats.gp > 0 else 0` — the guarded division used
everywhere a games-played divisor appears. -/
def avgOf (total : ℚ) (gp : ℕ) : ℚ :=
  if 0 < gp then total / gp else 0

/-- First `nba.players` row with the given id (the inner join to `Player`). -/
def findPlayer : List PlayerRow → ℕ → Option PlayerRow
  | [], _ => none
  | pl :: rest, p => if pl.id = p then some pl else findPlayer rest p

/-- `{inj.player_id: inj for inj in latest_injuries}` followed by `.get(p)`:
a Python dict comprehension keeps the LAST row for a duplicated key. -/
def lookupInjury : List InjuryRow → ℕ → Option InjuryRow
  | [], _ => none
  | i :: rest, p =>
    match lookupInjury rest p with
    | some j => some j
    | none => if i.player = p then some i else none

/-- `fn.MAX(PlayerSeasonStats.as_of_date)` over a list of dates
(`none` when the table is empty). -/
def maxDate : List ℤ → Option ℤ
  | [] => none
  | d :: ds =>
    match maxDate ds with
    | none => some d
    | some m => some (max d m)

/-- `_get_latest_stats_date`: the single most recent `as_of_date` in the
season-stats table. -/
def latestStatsDate (db : DB) : Option ℤ :=
  maxDate (db.seasonStats.map (fun s => s.as_of_date))

/-! ## Season Baseline / Injury Status Reader -/

/-- The `latest_injuries` query of `_get_prominent_injured_players`: injury
rows whose `report_date` is on or before `asOf` and maximal among that
player's rows on or before `asOf` (the grouped-max subquery join), restricted
to status `Out` or `Doubtful`. -/
def latestInjuries (db : DB) (asOf : ℤ) : List InjuryRow :=
  db.injuries.filter (fun i =>
    decide (i.report_date ≤ asOf ∧
      (∀ j ∈ db.injuries, j.player = i.player → j.report_date ≤ asOf →
        j.report_date ≤ i.report_date) ∧
      (i.status = "Out" ∨ i.status = "Doubtful")))

/-- `_get_prominent_injured_players`: join the latest Out/Doubtful injuries to
the season-stats rows at the globally latest `as_of_date`, keep `gp ≥ 20` and
`avg_min ≥ 28`. -/
def getProminentInjuredPlayers (db : DB) (asOf : ℤ) : List InjuredInfo :=
  let latest := latestInjuries db asOf
  if latest = [] then []
  else
    match latestStatsDate db with
    | none => []
    | some ld =>
      db.seasonStats.filterMap (fun s =>
        if (∃ i ∈ latest, i.player = s.player) ∧ s.as_of_date = ld ∧
            PROMINENT_MIN_GP ≤ s.gp then
          (findPlayer db.players s.player).bind (fun pl =>
            if avgOf s.minTot s.gp < PROMINENT_MIN_THRESHOLD then none
            else
              some { player_id := s.player
                     name := pl.name
                     team_id := s.team
                     position := (pl.position).getD ""
                     avg_min := avgOf s.minTot s.gp
                     avg_fpts := avgOf s.fptsTot s.gp
                     gp := s.gp
                     status := ((lookupInjury latest s.player).map (fun i => i.status)).getD "Out"
                     expected_return :=
                       ((lookupInjury latest s.player).map (fun i => i.expected_return)).getD none })
        else none)

/-! ## Depth Chart Builder -/

/-- Stable descending insertion by `avg_min` (an element is placed before the
first entry whose `avg_min` is not larger, so earlier input order wins ties —
the stable `list.sort(..., reverse=True)` of the source). -/
def insertByAvgDesc (x : ChartEntry) : List ChartEntry → List ChartEntry
  | [] => [x]
  | y :: ys => if x.avg_min < y.avg_min then y :: insertByAvgDesc x ys else x :: y :: ys

/-- Stable sort of the candidate list by `avg_min` descending. -/
def sortByAvgDesc : List ChartEntry → List ChartEntry
  | [] => []
  | x :: xs => insertByAvgDesc x (sortByAvgDesc xs)

/-- `enumerate(candidates, start=1)` assigning `depth_rank`. -/
def assignRanks : List ChartEntry → ℕ → List ChartEntry
  | [], _ => []
  | c :: cs, n => { c with depth_rank := n } :: assignRanks cs (n + 1)

/-- `_build_position_depth_chart`: rotation players (`gp ≥ 10`,
`avg_min ≥ 12`) on the team at the latest stats date, excluding the injured
player, position-filtered by the adjacency group (with the unknown-position
fallbacks of the source), sorted by `avg_min` descending with 1-based ranks. -/
def buildPositionDepthChart (db : DB) (teamId : String) (injuredPlayerId : ℕ)
    (injuredPosition : String) (latestDate : ℤ) : List ChartEntry :=
  let adjacent0 := positionAdjacency injuredPosition.toUpper
  let adjacent := if adjacent0 = [] then allPositions else adjacent0
  let cands := db.seasonStats.filterMap (fun s =>
    if s.team = teamId ∧ s.as_of_date = latestDate ∧ s.player ≠ injuredPlayerId ∧
        TEAMMATE_MIN_GP ≤ s.gp then
      (findPlayer db.players s.player).bind (fun pl =>
        if avgOf s.minTot s.gp < TEAMMATE_MIN_THRESHOLD then none
        else if injuredPosition = "" ∨ ((pl.position).getD "").toUpper = "" ∨
            ((pl.position).getD "").toUpper ∈ adjacent then
          some { player_id := s.player
                 name := pl.name
                 position := (pl.position).getD ""
                 avg_min := avgOf s.minTot s.gp
                 avg_fpts := avgOf s.fptsTot s.gp
                 gp := s.gp
                 depth_rank := 0 }
        else none)
    else none)
  assignRanks (sortByAvgDesc cands) 1

/-! ## Opportunity Validator -/

/-- Step 1 of `_get_position_validated_opportunity_stats`: the candidate's
games on this team in `[asOf - lookback, asOf)` with
`min ≥ max(candidate_avg_min * 1.25, 20)`. -/
def highUsageGames (gs : List GameStat) (candidateId : ℕ) (candidateAvgMin : ℚ)
    (teamId : String) (asOfDate : ℤ) (lookbackDays : ℤ) : List GameStat :=
  let startDate := asOfDate - lookbackDays
  let minThreshold := max (candidateAvgMin * HIGH_USAGE_MULTIPLIER) HIGH_USAGE_MIN_FLOOR
  gs.filter (fun g =>
    decide (g.player = candidateId ∧ g.team = teamId ∧
      startDate ≤ g.game_date ∧ g.game_date < asOfDate ∧ minThreshold ≤ g.min))

/-- Step 2/3's peer-absence test for one date: `position_peer_ids -
peers_by_date.get(d, set())` is nonempty, i.e. at least one peer has no
box-score row on date `d` (the `peers_played` query is not restricted by
team, so any row of the peer on that date counts as having played). -/
def peerAbsent (gs : List GameStat) (peerIds : List ℕ) (d : ℤ) : Bool :=
  decide (∃ p ∈ peerIds, ¬ ∃ r ∈ gs, r.player = p ∧ r.game_date = d)

/-- The `validated` list: high-usage games on whose date at least one
position peer was absent. -/
def validatedGames (gs : List GameStat) (candidateId : ℕ) (candidateAvgMin : ℚ)
    (teamId : String) (peerIds : List ℕ) (asOfDate : ℤ) (lookbackDays : ℤ) :
    List GameStat :=
  (highUsageGames gs candidateId candidateAvgMin teamId asOfDate lookbackDays).filter
    (fun g => peerAbsent gs peerIds g.game_date)

/-- `_get_position_validated_opportunity_stats`: returns
`(avg_min, avg_fpts, count)` over validated opportunity games, or
`(none, none, 0)` when the peer set is empty, no high-usage games exist, or
fewer than `MIN_OPP_SAMPLES` validated games remain. -/
def validateOpportunities (gs : List GameStat) (candidateId : ℕ)
    (candidateAvgMin : ℚ) (teamId : String) (peerIds : List ℕ) (asOfDate : ℤ)
    (lookbackDays : ℤ) : Option ℚ × Option ℚ × ℕ :=
  if peerIds = [] then (none, none, 0)
  else
    let hu := highUsageGames gs candidateId candidateAvgMin teamId asOfDate lookbackDays
    if hu = [] then (none, none, 0)
    else
      let v := validatedGames gs candidateId candidateAvgMin teamId peerIds asOfDate lookbackDays
      if v.length < MIN_OPP_SAMPLES then (none, none, 0)
      else
        (some ((v.map (fun g => g.min)).sum / v.length),
         some ((v.map (fun g => g.fpts)).sum / v.length),
         v.length)

/-! ## Minutes-Boost Estimator and Breakout Scorer -/

/-- `_estimate_min_boost`: empirical delta when opportunity data exists,
otherwise the rank-proportional share of the injured player's minutes.
(`depth_size` is accepted and unused, as in the source.) -/
def estimateMinBoost (injuredAvgMin candidateAvgMin : ℚ) (oppMin : Option ℚ)
    (depthRank : ℕ) (depthSize : ℕ) : ℚ :=
  match oppMin with
  | some om => max 0 (om - candidateAvgMin)
  | none =>
    let share := max (0.35 - ((depthRank : ℚ) - 1) * 0.10) 0.10
    injuredAvgMin * share

/-- `_calculate_breakout_score`: depth-rank bonus + clamped confidence-weighted
opportunity boost + production baseline + headroom bonus.
(`injured_avg_min` is accepted and unused, as in the source.) -/
def calculateBreakoutScore (candidateAvgMin candidateAvgFpts injuredAvgMin : ℚ)
    (depthRank : ℕ) (oppMin oppFpts : Option ℚ) (oppCount : ℕ) : ℚ :=
  let rankBonus := depthRankBonus depthRank
  let oppBoost :=
    match oppMin, oppFpts with
    | some om, some ofp =>
      let fptsDelta := ofp - candidateAvgFpts
      let minDelta := om - candidateAvgMin
      let confidence := min ((oppCount : ℚ) / 5) 1
      let rawBoost := (fptsDelta * 1.5 + minDelta * 0.8) * confidence
      min (max rawBoost 0) 40
    | _, _ => 0
  let productionScore := candidateAvgFpts * 0.5
  let headroom := max (36 - candidateAvgMin) 0
  let headroomBonus := headroom * 0.4
  rankBonus + oppBoost + productionScore + headroomBonus

/-! ## Rounding (`round(x, 1)` in `execute`) -/

/-- Python's `round` to an integer: round half to even (exact-rational model
of the source's float rounding). -/
def roundHalfEven (x : ℚ) : ℤ :=
  let f := ⌊x⌋
  let r := x - f
  if r < 1/2 then f
  else if 1/2 < r then f + 1
  else if f % 2 = 0 then f else f + 1

/-- `round(x, 1)`: one decimal place. -/
def roundTo1 (x : ℚ) : ℚ :=
  (roundHalfEven (x * 10) : ℚ) / 10

/-! ## Output table and `BreakoutCandidate.upsert` -/

/-- One row of `nba.breakout_candidates` as written by the pipeline
(`id`/`created_at` metadata omitted). -/
structure CandRow where
  injured_player_id : ℕ
  injured_avg_min : ℚ
  injury_status : String
  expected_return : Option ℤ
  beneficiary_player_id : ℕ
  team_id : String
  depth_rank : ℕ
  beneficiary_avg_min : ℚ
  beneficiary_avg_fpts : ℚ
  projected_min_boost : ℚ
  opp_min_avg : Option ℚ
  opp_fpts_avg : Option ℚ
  opp_game_count : ℕ
  breakout_score : ℚ
  as_of_date : ℤ
  pipeline_run_id : ℕ
  deriving DecidableEq, Repr, Inhabited

/-- The unique key of the output table:
`(beneficiary_player_id, as_of_date)`. -/
def rowKey (r : CandRow) : ℕ × ℤ :=
  (r.beneficiary_player_id, r.as_of_date)

/-- `BreakoutCandidate.upsert`: `get_or_create` on the key, then overwrite
every non-key column — i.e. replace the first row with the same key, or
append the new row when the key is absent. -/
def upsertRow : List CandRow → CandRow → List CandRow
  | [], r => [r]
  | x :: xs, r => if rowKey x = rowKey r then r :: xs else x :: upsertRow xs r

/-- A sequence of upserts applied left to right. -/
def applyUpserts (tbl : List CandRow) (l : List CandRow) : List CandRow :=
  l.foldl upsertRow tbl

/-- The uniqueness invariant of the table: at most one row per
`(beneficiary_player_id, as_of_date)`. -/
def uniqKeys (tbl : List CandRow) : Prop :=
  (tbl.map rowKey).Nodup

/-! ## Orchestrator (`execute`) -/

/-- The row `execute` passes to `BreakoutCandidate.upsert` for one
(injured player, depth-chart candidate) pair.  `peers` is
`{injured} ∪ chart player ids`; the validator receives it minus the
candidate itself.  The lookback default of the source (120 days) is used. -/
def mkCandRow (db : DB) (asOf : ℤ) (rid : ℕ) (inj : InjuredInfo)
    (chartSize : ℕ) (peers : List ℕ) (cand : ChartEntry) : CandRow :=
  let res := validateOpportunities db.gameStats cand.player_id cand.avg_min
    inj.team_id (peers.filter (fun p => p ≠ cand.player_id)) asOf 120
  let oppMin := res.1
  let oppFpts := res.2.1
  let oppCount := res.2.2
  let boost := estimateMinBoost inj.avg_min cand.avg_min oppMin cand.depth_rank chartSize
  let score := calculateBreakoutScore cand.avg_min cand.avg_fpts inj.avg_min
    cand.depth_rank oppMin oppFpts oppCount
  { injured_player_id := inj.player_id
    injured_avg_min := roundTo1 inj.avg_min
    injury_status := inj.status
    expected_return := inj.expected_return
    beneficiary_player_id := cand.player_id
    team_id := inj.team_id
    depth_rank := cand.depth_rank
    beneficiary_avg_min := roundTo1 cand.avg_min
    beneficiary_avg_fpts := roundTo1 cand.avg_fpts
    projected_min_boost := roundTo1 boost
    opp_min_avg := oppMin.map roundTo1
    opp_fpts_avg := oppFpts.map roundTo1
    opp_game_count := oppCount
    breakout_score := roundTo1 score
    as_of_date := asOf
    pipeline_run_id := rid }

/-- `execute`, - as a state transformer on the output table.  `asOf` is the
resolved `as_of_date` (the `ctx.date_override` / wall-clock resolution at the
top of the source is outside the model), `rid` the pipeline run id. -/
def execute (db : DB) (asOf : ℤ) (rid : ℕ) (tbl : List CandRow) : List CandRow :=
  let injured := getProminentInjuredPlayers db asOf
  if injured = [] then tbl
  else
    match latestStatsDate db with
    | none => tbl
    | some lsd =>
      injured.foldl (fun t inj =>
        let chart := buildPositionDepthChart db inj.team_id inj.player_id inj.position lsd
        if chart = [] then t
        else
          let peers := inj.player_id :: chart.map (fun c => c.player_id)
          chart.foldl (fun t2 cand =>
            upsertRow t2 (mkCandRow db asOf rid inj chart.length peers cand)) t) tbl

/-- The rows one injured player's depth chart contributes, in upsert order. -/
def emittedFor (db : DB) (asOf : ℤ) (rid : ℕ) (lsd : ℤ) (inj : InjuredInfo) :
    List CandRow :=
  let chart := buildPositionDepthChart db inj.team_id inj.player_id inj.position lsd
  if chart = [] then []
  else
    let peers := inj.player_id :: chart.map (fun c => c.player_id)
    chart.map (mkCandRow db asOf rid inj chart.length peers)

/-- The rows emitted for a list of injured players, in order. -/
def emitList (db : DB) (asOf : ℤ) (rid : ℕ) (lsd : ℤ) :
    List InjuredInfo → List CandRow
  | [] => []
  | inj :: rest => emittedFor db asOf rid lsd inj ++ emitList db asOf rid lsd rest

/-- All rows a run of `execute` emits (one per processed
(injured player, candidate) pair, in processing order). -/
def emittedRows (db : DB) (asOf : ℤ) (rid : ℕ) : List CandRow :=
  match latestStatsDate db with
  | none => []
  | some lsd => emitList db asOf rid lsd (getProminentInjuredPlayers db asOf)

/-- Erase the audit run id of a row (for comparing tables across runs). -/
def stripRunId (r : CandRow) : CandRow :=
  { r with pipeline_run_id := 0 }

/-! ## Concrete database snapshots used by witnesses and counterexamples -/

/-- Two prominent injured centers (players 1 and 2) on the same team with a
shared rotation backup (player 3): player 3 appears in both depth charts. -/
def dbShared : DB :=
  { injuries := [⟨1, 90, "Out", none⟩, ⟨2, 90, "Out", none⟩]
    seasonStats :=
      [⟨1, "BOS", 50, 20, 600, 800⟩,
       ⟨2, "BOS", 50, 20, 580, 700⟩,
       ⟨3, "BOS", 50, 10, 150, 200⟩]
    players :=
      [⟨1, "A", some "C"⟩, ⟨2, "B", some "C"⟩, ⟨3, "D", some "C"⟩]
    gameStats := [] }

/-- A prominent injured player (player 1) whose most recent season-stats row
(date 40, avg 32 min over 25 gp) is older than the globally latest
season-stats date (50, contributed by player 2's row). -/
def dbStale : DB :=
  { injuries := [⟨1, 90, "Out", none⟩]
    seasonStats :=
      [⟨1, "BOS", 40, 25, 800, 900⟩,
       ⟨2, "BOS", 50, 5, 100, 100⟩]
    players := [⟨1, "A", some "C"⟩, ⟨2, "B", some "C"⟩]
    gameStats := [] }

/-- An injured player (1) with unknown nonempty position "XX" and a rotation
teammate (2) passing both thresholds whose position string "PF/C" is not one
of the seven canonical positions. -/
def dbOddPos : DB :=
  { injuries := [⟨1, 90, "Out", none⟩]
    seasonStats :=
      [⟨1, "BOS", 50, 25, 800, 900⟩,
       ⟨2, "BOS", 50, 10, 150, 200⟩]
    players := [⟨1, "A", some "XX"⟩, ⟨2, "B", some "PF/C"⟩]
    gameStats := [] }

/-- A small game log for the validator witnesses: candidate 1 (season avg
passed as 10) has two high-usage games on team "BOS" inside the window, and
peer 2 has no box-score rows at all. -/
def gsW : List GameStat :=
  [⟨1, "BOS", 10, 30, 42⟩, ⟨1, "BOS", 20, 40, 50⟩, ⟨1, "BOS", 30, 12, 9⟩]

/-- Spec-side definition, following the claim's words for C4 (not the code):
a player whose latest injury record on or before `asOf` has status Out or
Doubtful, and whose own most recent season-stats row has `gp ≥ 20` and
average minutes `≥ 28`.  Used only to compare against
`getProminentInjuredPlayers`. -/
def specProminentMember (db : DB) (asOf : ℤ) (p : ℕ) : Prop :=
  (∃ i ∈ db.injuries, i.player = p ∧ i.report_date ≤ asOf ∧
    (∀ j ∈ db.injuries, j.player = p → j.report_date ≤ asOf →
      j.report_date ≤ i.report_date) ∧
    (i.status = "Out" ∨ i.status = "Doubtful")) ∧
  (∃ s ∈ db.seasonStats, s.player = p ∧
    (∀ t ∈ db.seasonStats, t.player = p → t.as_of_date ≤ s.as_of_date) ∧
    PROMINENT_MIN_GP ≤ s.gp ∧ PROMINENT_MIN_THRESHOLD ≤ avgOf s.minTot s.gp)

instance (db : DB) (asOf : ℤ) (p : ℕ) : Decidable (specProminentMember db asOf p) := by
  unfold specProminentMember
  infer_instance

/-- The first row emitted by a run on `dbShared` (used as a concrete input). -/
def row0 : CandRow := (emittedRows dbShared 100 7).headI

/-- The row currently stored under a key, if any. -/
def findByKey : List CandRow → (ℕ × ℤ) → Option CandRow
  | [], _ => none
  | x :: xs, k => if rowKey x = k then some x else findByKey xs k

/-! ## Lemmas about the upsert semantics -/

theorem upsert_cons_pos (x : CandRow) (xs : List CandRow) (r : CandRow)
    (h : rowKey x = rowKey r) : upsertRow (x :: xs) r = r :: xs := by
  rw [upsertRow, if_pos h]

theorem upsert_cons_neg (x : CandRow) (xs : List CandRow) (r : CandRow)
    (h : ¬ rowKey x = rowKey r) : upsertRow (x :: xs) r = x :: upsertRow xs r := by
  rw [upsertRow, if_neg h]

theorem mem_map_rowKey_upsert (t : List CandRow) (r : CandRow) (k : ℕ × ℤ) :
    k ∈ (upsertRow t r).map rowKey ↔ k ∈ t.map rowKey ∨ k = rowKey r := by
  induction t with
  | nil => simp [upsertRow]
  | cons x xs ih =>
    by_cases h : rowKey x = rowKey r
    · rw [upsert_cons_pos x xs r h]
      simp only [List.map_cons, List.mem_cons, h]
      tauto
    · rw [upsert_cons_neg x xs r h]
      simp only [List.map_cons, List.mem_cons, ih]
      tauto

theorem upsert_key_self (t : List CandRow) (r : CandRow) :
    rowKey r ∈ (upsertRow t r).map rowKey := by
  rw [mem_map_rowKey_upsert]
  exact Or.inr rfl

theorem upsert_uniqKeys (t : List CandRow) (r : CandRow) (h : uniqKeys t) :
    uniqKeys (upsertRow t r) := by
  induction t with
  | nil => simp [upsertRow, uniqKeys]
  | cons x xs ih =>
    unfold uniqKeys at h ⊢
    rw [List.map_cons, List.nodup_cons] at h
    by_cases hk : rowKey x = rowKey r
    · rw [upsert_cons_pos x xs r hk, List.map_cons, List.nodup_cons]
      exact ⟨hk ▸ h.1, h.2⟩
    · rw [upsert_cons_neg x xs r hk, List.map_cons, List.nodup_cons]
      refine ⟨?_, ih h.2⟩
      intro hmem
      rcases (mem_map_rowKey_upsert xs r (rowKey x)).1 hmem with hin | heq
      · exact h.1 hin
      · exact hk heq

theorem upsert_upsert_same (t : List CandRow) (r1 r2 : CandRow)
    (h : rowKey r1 = rowKey r2) :
    upsertRow (upsertRow t r1) r2 = upsertRow t r2 := by
  induction t with
  | nil =>
    show upsertRow [r1] r2 = [r2]
    rw [upsert_cons_pos r1 [] r2 h]
  | cons x xs ih =>
    by_cases hx : rowKey x = rowKey r1
    · rw [upsert_cons_pos x xs r1 hx, upsert_cons_pos r1 xs r2 h,
        upsert_cons_pos x xs r2 (hx.trans h)]
    · have hx2 : ¬ rowKey x = rowKey r2 := fun hc => hx (hc.trans h.symm)
      rw [upsert_cons_neg x xs r1 hx, upsert_cons_neg x (upsertRow xs r1) r2 hx2,
        upsert_cons_neg x xs r2 hx2, ih]

theorem upsert_comm_of_mem (t : List CandRow) (r1 r2 : CandRow)
    (hne : rowKey r1 ≠ rowKey r2) (hmem : rowKey r1 ∈ t.map rowKey) :
    upsertRow (upsertRow t r1) r2 = upsertRow (upsertRow t r2) r1 := by
  induction t with
  | nil => simp at hmem
  | cons x xs ih =>
    by_cases h1 : rowKey x = rowKey r1
    · have h2 : ¬ rowKey x = rowKey r2 := fun hc => hne (h1.symm.trans hc)
      rw [upsert_cons_pos x xs r1 h1, upsert_cons_neg r1 xs r2 hne,
        upsert_cons_neg x xs r2 h2, upsert_cons_pos x (upsertRow xs r2) r1 h1]
    · by_cases h2 : rowKey x = rowKey r2
      · rw [upsert_cons_neg x xs r1 h1, upsert_cons_pos x (upsertRow xs r1) r2 h2,
          upsert_cons_pos x xs r2 h2,
          upsert_cons_neg r2 xs r1 (fun hc => hne hc.symm)]
      · have hmem' : rowKey r1 ∈ xs.map rowKey := by
          rw [List.map_cons, List.mem_cons] at hmem
          rcases hmem with heq | hin
          · exact absurd heq.symm h1
          · exact hin
        rw [upsert_cons_neg x xs r1 h1, upsert_cons_neg x (upsertRow xs r1) r2 h2,
          upsert_cons_neg x xs r2 h2, upsert_cons_neg x (upsertRow xs r2) r1 h1,
          ih hmem']

theorem findByKey_upsert_self (t : List CandRow) (r : CandRow) :
    findByKey (upsertRow t r) (rowKey r) = some r := by
  induction t with
  | nil =>
    show findByKey [r] (rowKey r) = some r
    rw [findByKey, if_pos rfl]
  | cons x xs ih =>
    by_cases h : rowKey x = rowKey r
    · rw [upsert_cons_pos x xs r h, findByKey, if_pos rfl]
    · rw [upsert_cons_neg x xs r h, findByKey, if_neg h, ih]

theorem findByKey_upsert_frame (t : List CandRow) (r : CandRow) (k : ℕ × ℤ)
    (h : k ≠ rowKey r) : findByKey (upsertRow t r) k = findByKey t k := by
  induction t with
  | nil =>
    show findByKey [r] k = findByKey [] k
    simp only [findByKey]
    rw [if_neg (fun hc => h hc.symm)]
  | cons x xs ih =>
    by_cases hx : rowKey x = rowKey r
    · have hxk : ¬ rowKey x = k := fun hc => h (hc ▸ hx)
      rw [upsert_cons_pos x xs r hx]
      simp only [findByKey]
      rw [if_neg (fun hc => h hc.symm), if_neg hxk]
    · rw [upsert_cons_neg x xs r hx]
      simp only [findByKey]
      rw [ih]

theorem applyUpserts_nil (t : List CandRow) : applyUpserts t [] = t := rfl

theorem applyUpserts_cons (t : List CandRow) (r : CandRow) (l : List CandRow) :
    applyUpserts t (r :: l) = applyUpserts (upsertRow t r) l := rfl

theorem applyUpserts_append (t : List CandRow) (l1 l2 : List CandRow) :
    applyUpserts t (l1 ++ l2) = applyUpserts (applyUpserts t l1) l2 :=
  List.foldl_append _ _ _ _

theorem findByKey_applyUpserts_frame (l : List CandRow) :
    ∀ (t : List CandRow) (k : ℕ × ℤ), (∀ a ∈ l, rowKey a ≠ k) →
    findByKey (applyUpserts t l) k = findByKey t k := by
  induction l with
  | nil => intro t k _; rfl
  | cons a l' ih =>
    intro t k h
    rw [applyUpserts_cons, ih (upsertRow t a) k (fun b hb => h b (List.mem_cons_of_mem a hb)),
      findByKey_upsert_frame t a k (fun hc => h a (List.mem_cons_self a l') hc.symm)]

theorem upsert_eq_self_of_find (t : List CandRow) (r : CandRow)
    (h : findByKey t (rowKey r) = some r) : upsertRow t r = t := by
  induction t with
  | nil => exact absurd h (by rw [findByKey]; exact Option.noConfusion)
  | cons x xs ih =>
    by_cases hx : rowKey x = rowKey r
    · rw [findByKey, if_pos hx] at h
      rw [upsert_cons_pos x xs r hx, Option.some_inj.1 h]
    · rw [findByKey, if_neg hx] at h
      rw [upsert_cons_neg x xs r hx, ih h]

theorem key_mem_applyUpserts_mono (l : List CandRow) :
    ∀ (t : List CandRow) (k : ℕ × ℤ), k ∈ t.map rowKey →
    k ∈ (applyUpserts t l).map rowKey := by
  induction l with
  | nil => intro t k h; exact h
  | cons a l' ih =>
    intro t k h
    rw [applyUpserts_cons]
    exact ih (upsertRow t a) k ((mem_map_rowKey_upsert t a k).2 (Or.inl h))

theorem key_mem_applyUpserts (l : List CandRow) :
    ∀ (t : List CandRow) (ρ : CandRow), ρ ∈ l →
    rowKey ρ ∈ (applyUpserts t l).map rowKey := by
  induction l with
  | nil => intro t ρ h; cases h
  | cons a l' ih =>
    intro t ρ h
    rw [applyUpserts_cons]
    rcases List.mem_cons.1 h with rfl | h'
    · exact key_mem_applyUpserts_mono l' (upsertRow t ρ) (rowKey ρ) (upsert_key_self t ρ)
    · exact ih (upsertRow t a) ρ h'

theorem applyUpserts_uniqKeys (l : List CandRow) :
    ∀ (t : List CandRow), uniqKeys t → uniqKeys (applyUpserts t l) := by
  induction l with
  | nil => intro t h; exact h
  | cons a l' ih =>
    intro t h
    rw [applyUpserts_cons]
    exact ih (upsertRow t a) (upsert_uniqKeys t a h)

theorem applyUpserts_upsert_cancel (l : List CandRow) :
    ∀ (t : List CandRow) (r : CandRow), rowKey r ∈ t.map rowKey →
    (∃ a ∈ l, rowKey a = rowKey r) →
    applyUpserts (upsertRow t r) l = applyUpserts t l := by
  induction l with
  | nil =>
    rintro t r _ ⟨a, ha, _⟩
    cases ha
  | cons a l' ih =>
    intro t r hmem hex
    rw [applyUpserts_cons, applyUpserts_cons]
    by_cases hk : rowKey a = rowKey r
    · rw [upsert_upsert_same t r a hk.symm]
    · rw [upsert_comm_of_mem t r a (fun hc => hk hc.symm) hmem]
      refine ih (upsertRow t a) r ((mem_map_rowKey_upsert t a (rowKey r)).2 (Or.inl hmem)) ?_
      rcases hex with ⟨b, hb, hbk⟩
      rcases List.mem_cons.1 hb with rfl | hb'
      · exact absurd hbk hk
      · exact ⟨b, hb', hbk⟩

theorem applyUpserts_idem (l : List CandRow) :
    ∀ (t : List CandRow), applyUpserts (applyUpserts t l) l = applyUpserts t l := by
  induction l with
  | nil => intro t; rfl
  | cons r l' ih =>
    intro t
    rw [applyUpserts_cons, applyUpserts_cons]
    have hT : rowKey r ∈ (applyUpserts (upsertRow t r) l').map rowKey :=
      key_mem_applyUpserts_mono l' (upsertRow t r) (rowKey r) (upsert_key_self t r)
    by_cases hw : ∃ a ∈ l', rowKey a = rowKey r
    · rw [applyUpserts_upsert_cancel l' (applyUpserts (upsertRow t r) l') r hT hw]
      exact ih (upsertRow t r)
    · push_neg at hw
      have hf : findByKey (applyUpserts (upsertRow t r) l') (rowKey r) = some r := by
        rw [findByKey_applyUpserts_frame l' (upsertRow t r) (rowKey r)
          (fun a ha => hw a ha)]
        exact findByKey_upsert_self t r
      rw [upsert_eq_self_of_find _ r hf]
      exact ih (upsertRow t r)

theorem rowKey_stripRunId (r : CandRow) : rowKey (stripRunId r) = rowKey r := rfl

theorem map_stripRunId_upsert (t : List CandRow) (r : CandRow) :
    (upsertRow t r).map stripRunId =
      upsertRow (t.map stripRunId) (stripRunId r) := by
  induction t with
  | nil => rfl
  | cons x xs ih =>
    by_cases h : rowKey x = rowKey r
    · have h' : rowKey (stripRunId x) = rowKey (stripRunId r) := by
        rw [rowKey_stripRunId, rowKey_stripRunId]; exact h
      rw [upsert_cons_pos x xs r h, List.map_cons, List.map_cons,
        upsert_cons_pos (stripRunId x) (xs.map stripRunId) (stripRunId r) h']
    · have h' : ¬ rowKey (stripRunId x) = rowKey (stripRunId r) := by
        rw [rowKey_stripRunId, rowKey_stripRunId]; exact h
      rw [upsert_cons_neg x xs r h, List.map_cons, List.map_cons,
        upsert_cons_neg (stripRunId x) (xs.map stripRunId) (stripRunId r) h', ih]

theorem map_stripRunId_applyUpserts (l : List CandRow) :
    ∀ (t : List CandRow),
    (applyUpserts t l).map stripRunId =
      applyUpserts (t.map stripRunId) (l.map stripRunId) := by
  induction l with
  | nil => intro t; rfl
  | cons r l' ih =>
    intro t
    rw [applyUpserts_cons, List.map_cons, applyUpserts_cons, ih,
      map_stripRunId_upsert]

theorem stripRunId_mkCandRow (db : DB) (asOf : ℤ) (rid : ℕ) (inj : InjuredInfo)
    (n : ℕ) (peers : List ℕ) (cand : ChartEntry) :
    stripRunId (mkCandRow db asOf rid inj n peers cand) =
      mkCandRow db asOf 0 inj n peers cand := rfl

theorem map_stripRunId_emittedFor (db : DB) (asOf : ℤ) (rid : ℕ) (lsd : ℤ)
    (inj : InjuredInfo) :
    (emittedFor db asOf rid lsd inj).map stripRunId =
      emittedFor db asOf 0 lsd inj := by
  unfold emittedFor
  by_cases hc : buildPositionDepthChart db inj.team_id inj.player_id inj.position lsd = []
  · simp [hc]
  · simp only [if_neg hc, List.map_map]
    exact List.map_congr_left (fun c _ => stripRunId_mkCandRow db asOf rid inj _ _ c)

theorem map_stripRunId_emitList (db : DB) (asOf : ℤ) (rid : ℕ) (lsd : ℤ) :
    ∀ (L : List InjuredInfo),
    (emitList db asOf rid lsd L).map stripRunId = emitList db asOf 0 lsd L := by
  intro L
  induction L with
  | nil => rfl
  | cons inj rest ih =>
    rw [emitList, emitList, List.map_append, ih, map_stripRunId_emittedFor]

theorem map_stripRunId_emittedRows (db : DB) (asOf : ℤ) (rid : ℕ) :
    (emittedRows db asOf rid).map stripRunId = emittedRows db asOf 0 := by
  unfold emittedRows
  cases latestStatsDate db with
  | none => rfl
  | some lsd => exact map_stripRunId_emitList db asOf rid lsd _

theorem chart_foldl_upsert_eq (db : DB) (asOf : ℤ) (rid : ℕ) (inj : InjuredInfo)
    (n : ℕ) (peers : List ℕ) (chart : List ChartEntry) :
    ∀ (t : List CandRow),
    chart.foldl (fun t2 cand => upsertRow t2 (mkCandRow db asOf rid inj n peers cand)) t =
      applyUpserts t (chart.map (mkCandRow db asOf rid inj n peers)) := by
  induction chart with
  | nil => intro t; rfl
  | cons c cs ih =>
    intro t
    rw [List.foldl_cons, List.map_cons, applyUpserts_cons, ih]

theorem execute_eq_applyUpserts (db : DB) (asOf : ℤ) (rid : ℕ) (tbl : List CandRow) :
    execute db asOf rid tbl = applyUpserts tbl (emittedRows db asOf rid) := by
  unfold execute emittedRows
  by_cases hinj : getProminentInjuredPlayers db asOf = []
  · rw [if_pos hinj]
    cases latestStatsDate db with
    | none => rfl
    | some lsd => rw [hinj]; rfl
  · rw [if_neg hinj]
    cases latestStatsDate db with
    | none => rfl
    | some lsd =>
      clear hinj
      dsimp only
      induction getProminentInjuredPlayers db asOf generalizing tbl with
      | nil => rfl
      | cons inj rest ih =>
        rw [List.foldl_cons, emitList, applyUpserts_append, ih]
        congr 1
        by_cases hc : buildPositionDepthChart db inj.team_id inj.player_id inj.position lsd = []
        · simp only [hc, if_pos, emittedFor, List.length_nil]
          rfl
        · simp only [emittedFor, if_neg hc]
          exact chart_foldl_upsert_eq db asOf rid inj _ _ _ tbl

/-! ## Membership lemmas for the pipeline stages -/

theorem mem_insertByAvgDesc (x : ChartEntry) (l : List ChartEntry) (c : ChartEntry) :
    c ∈ insertByAvgDesc x l ↔ c = x ∨ c ∈ l := by
  induction l with
  | nil => simp [insertByAvgDesc]
  | cons y ys ih =>
    unfold insertByAvgDesc
    by_cases h : x.avg_min < y.avg_min
    · rw [if_pos h]
      simp only [List.mem_cons, ih]
      tauto
    · rw [if_neg h]
      simp only [List.mem_cons]

theorem mem_sortByAvgDesc (l : List ChartEntry) (c : ChartEntry) :
    c ∈ sortByAvgDesc l ↔ c ∈ l := by
  induction l with
  | nil => simp [sortByAvgDesc]
  | cons x xs ih =>
    rw [sortByAvgDesc, mem_insertByAvgDesc, ih, List.mem_cons]

theorem mem_assignRanks_avg (l : List ChartEntry) :
    ∀ (n : ℕ) (c : ChartEntry), c ∈ assignRanks l n →
    ∃ c0 ∈ l, c.avg_min = c0.avg_min := by
  induction l with
  | nil => intro n c h; cases h
  | cons x xs ih =>
    intro n c h
    rcases List.mem_cons.1 h with rfl | h'
    · exact ⟨x, List.mem_cons_self x xs, rfl⟩
    · obtain ⟨c0, hc0, he⟩ := ih (n + 1) c h'
      exact ⟨c0, List.mem_cons_of_mem x hc0, he⟩

theorem chart_avg_min_ge (db : DB) (teamId : String) (injId : ℕ)
    (injPos : String) (lsd : ℤ) :
    ∀ c ∈ buildPositionDepthChart db teamId injId injPos lsd,
    TEAMMATE_MIN_THRESHOLD ≤ c.avg_min := by
  intro c hc
  unfold buildPositionDepthChart at hc
  obtain ⟨c0, hc0, havg⟩ := mem_assignRanks_avg _ _ _ hc
  rw [mem_sortByAvgDesc, List.mem_filterMap] at hc0
  obtain ⟨s, _, hsome⟩ := hc0
  rw [havg]
  simp only [Option.ite_none_right_eq_some, Option.bind_eq_some,
    Option.ite_none_left_eq_some, Option.some_inj] at hsome
  obtain ⟨h1, pl, hfp, h2, h3, hrec⟩ := hsome
  rw [← hrec]
  exact le_of_not_lt h2

theorem prominent_avg_min_ge (db : DB) (asOf : ℤ) :
    ∀ inj ∈ getProminentInjuredPlayers db asOf,
    PROMINENT_MIN_THRESHOLD ≤ inj.avg_min := by
  intro inj hinj
  unfold getProminentInjuredPlayers at hinj
  by_cases hlat : latestInjuries db asOf = []
  · simp [hlat] at hinj
  · simp only [if_neg hlat] at hinj
    rcases hld : latestStatsDate db with _ | ld <;> rw [hld] at hinj
    · cases hinj
    · rw [List.mem_filterMap] at hinj
      obtain ⟨s, _, hsome⟩ := hinj
      simp only [Option.ite_none_right_eq_some, Option.bind_eq_some,
        Option.ite_none_left_eq_some, Option.some_inj] at hsome
      obtain ⟨h1, pl, hfp, h2, hrec⟩ := hsome
      rw [← hrec]
      exact le_of_not_lt h2

theorem mem_emittedFor_of (db : DB) (asOf : ℤ) (rid : ℕ) (lsd : ℤ)
    (inj : InjuredInfo) (cand : ChartEntry)
    (hc : cand ∈ buildPositionDepthChart db inj.team_id inj.player_id inj.position lsd) :
    mkCandRow db asOf rid inj
      (buildPositionDepthChart db inj.team_id inj.player_id inj.position lsd).length
      (inj.player_id ::
        (buildPositionDepthChart db inj.team_id inj.player_id inj.position lsd).map
          (fun c => c.player_id)) cand ∈
      emittedFor db asOf rid lsd inj := by
  unfold emittedFor
  simp only [if_neg (List.ne_nil_of_mem hc)]
  exact List.mem_map_of_mem _ hc

theorem mem_emittedFor_inv (db : DB) (asOf : ℤ) (rid : ℕ) (lsd : ℤ)
    (inj : InjuredInfo) (ρ : CandRow) (h : ρ ∈ emittedFor db asOf rid lsd inj) :
    ∃ cand ∈ buildPositionDepthChart db inj.team_id inj.player_id inj.position lsd,
      ρ = mkCandRow db asOf rid inj
        (buildPositionDepthChart db inj.team_id inj.player_id inj.position lsd).length
        (inj.player_id ::
          (buildPositionDepthChart db inj.team_id inj.player_id inj.position lsd).map
            (fun c => c.player_id)) cand := by
  unfold emittedFor at h
  by_cases hc : buildPositionDepthChart db inj.team_id inj.player_id inj.position lsd = []
  · simp [hc] at h
  · simp only [if_neg hc] at h
    obtain ⟨cand, hcand, he⟩ := List.mem_map.1 h
    exact ⟨cand, hcand, he.symm⟩

theorem mem_emitList_of (db : DB) (asOf : ℤ) (rid : ℕ) (lsd : ℤ) :
    ∀ (L : List InjuredInfo) (inj : InjuredInfo), inj ∈ L →
    ∀ ρ ∈ emittedFor db asOf rid lsd inj, ρ ∈ emitList db asOf rid lsd L := by
  intro L
  induction L with
  | nil => intro inj h; cases h
  | cons i0 rest ih =>
    intro inj h ρ hρ
    rw [emitList, List.mem_append]
    rcases List.mem_cons.1 h with rfl | h'
    · exact Or.inl hρ
    · exact Or.inr (ih inj h' ρ hρ)

theorem mem_emitList_inv (db : DB) (asOf : ℤ) (rid : ℕ) (lsd : ℤ) :
    ∀ (L : List InjuredInfo) (ρ : CandRow), ρ ∈ emitList db asOf rid lsd L →
    ∃ inj ∈ L, ρ ∈ emittedFor db asOf rid lsd inj := by
  intro L
  induction L with
  | nil => intro ρ h; cases h
  | cons i0 rest ih =>
    intro ρ h
    rw [emitList, List.mem_append] at h
    rcases h with h' | h'
    · exact ⟨i0, List.mem_cons_self i0 rest, h'⟩
    · obtain ⟨inj, hi, hρ⟩ := ih ρ h'
      exact ⟨inj, List.mem_cons_of_mem i0 hi, hρ⟩

/-! ## Validator and rounding bounds -/

theorem mul_length_le_sum (l : List ℚ) (t : ℚ) (h : ∀ x ∈ l, t ≤ x) :
    t * l.length ≤ l.sum := by
  induction l with
  | nil => simp
  | cons x xs ih =>
    rw [List.sum_cons, List.length_cons]
    push_cast
    have hx := h x (List.mem_cons_self x xs)
    have hxs := ih (fun y hy => h y (List.mem_cons_of_mem x hy))
    nlinarith [hx, hxs]

theorem le_listMean (l : List ℚ) (t : ℚ) (hne : l ≠ []) (h : ∀ x ∈ l, t ≤ x) :
    t ≤ l.sum / l.length := by
  have hlen : 0 < (l.length : ℚ) := by
    have : 0 < l.length := List.length_pos.2 hne
    exact_mod_cast this
  rw [le_div_iff hlen]
  exact mul_length_le_sum l t h

theorem validated_min_ge (gs : List GameStat) (cand : ℕ) (cavg : ℚ)
    (team : String) (peers : List ℕ) (asOf lb : ℤ) :
    ∀ g ∈ validatedGames gs cand cavg team peers asOf lb,
    max (cavg * HIGH_USAGE_MULTIPLIER) HIGH_USAGE_MIN_FLOOR ≤ g.min := by
  intro g hg
  unfold validatedGames at hg
  have hhu := (List.mem_filter.1 hg).1
  unfold highUsageGames at hhu
  have hpred := (List.mem_filter.1 hhu).2
  simp only [decide_eq_true_eq] at hpred
  exact hpred.2.2.2.2

theorem validator_oppMin_ge (gs : List GameStat) (cand : ℕ) (cavg : ℚ)
    (team : String) (peers : List ℕ) (asOf lb : ℤ) (o : ℚ)
    (h : (validateOpportunities gs cand cavg team peers asOf lb).1 = some o) :
    max (cavg * HIGH_USAGE_MULTIPLIER) HIGH_USAGE_MIN_FLOOR ≤ o := by
  unfold validateOpportunities at h
  by_cases hp : peers = []
  · rw [if_pos hp] at h; cases h
  · simp only [if_neg hp] at h
    by_cases hhu : highUsageGames gs cand cavg team asOf lb = []
    · rw [if_pos hhu] at h; cases h
    · simp only [if_neg hhu] at h
      by_cases hv : (validatedGames gs cand cavg team peers asOf lb).length < MIN_OPP_SAMPLES
      · rw [if_pos hv] at h; cases h
      · simp only [if_neg hv] at h
        have ho := Option.some_inj.1 h
        have hne : validatedGames gs cand cavg team peers asOf lb ≠ [] := by
          intro hc
          rw [hc] at hv
          exact hv (by norm_num [MIN_OPP_SAMPLES])
        have hmean : max (cavg * HIGH_USAGE_MULTIPLIER) HIGH_USAGE_MIN_FLOOR ≤
            ((validatedGames gs cand cavg team peers asOf lb).map (fun g => g.min)).sum /
              ((validatedGames gs cand cavg team peers asOf lb).map (fun g => g.min)).length := by
          apply le_listMean
          · intro hc
            exact hne (List.map_eq_nil.1 hc)
          · intro x hx
            obtain ⟨g, hgm, he⟩ := List.mem_map.1 hx
            rw [← he]
            exact validated_min_ge gs cand cavg team peers asOf lb g hgm
        rw [List.length_map] at hmean
        rw [← ho]
        exact hmean

theorem roundHalfEven_ge (n : ℤ) (y : ℚ) (h : (n : ℚ) ≤ y) : n ≤ roundHalfEven y := by
  unfold roundHalfEven
  have hf : n ≤ ⌊y⌋ := Int.le_floor.2 h
  dsimp only
  split_ifs <;> omega

theorem le_roundTo1_of_le (x : ℚ) (h : (14/5 : ℚ) ≤ x) : (14/5 : ℚ) ≤ roundTo1 x := by
  unfold roundTo1
  have h1 : ((28 : ℤ) : ℚ) ≤ x * 10 := by push_cast; linarith
  have h2 : (28 : ℤ) ≤ roundHalfEven (x * 10) := roundHalfEven_ge 28 _ h1
  have h3 : ((28 : ℤ) : ℚ) ≤ (roundHalfEven (x * 10) : ℚ) := by exact_mod_cast h2
  push_cast at h3
  linarith

/-! ## Claim theorems -/

/-- C1: for every input to the breakout scorer (with the spec's domain fact
that the candidate's average fantasy points are non-negative), the returned
score is at least the depth-rank bonus for that rank — 35, 25, 15, 8 for
ranks 1–4 and 4 otherwise — and in particular `breakout_score ≥ 0`, because
the opportunity boost, production baseline and headroom bonus are each
non-negative before summation. -/
theorem breakout_c1_score_floor (cm cf im : ℚ) (rank : ℕ) (om ofp : Option ℚ)
    (oc : ℕ) (hcf : 0 ≤ cf) :
    depthRankBonus rank ≤ calculateBreakoutScore cm cf im rank om ofp oc ∧
    0 ≤ calculateBreakoutScore cm cf im rank om ofp oc ∧
    depthRankBonus 1 = 35 ∧ depthRankBonus 2 = 25 ∧ depthRankBonus 3 = 15 ∧
    depthRankBonus 4 = 8 ∧ (∀ r : ℕ, 5 ≤ r → depthRankBonus r = 4) := by
  have hb : ∀ r : ℕ, (4 : ℚ) ≤ depthRankBonus r := by
    intro r
    unfold depthRankBonus
    split_ifs <;> norm_num
  have hprod : 0 ≤ cf * 0.5 := mul_nonneg hcf (by norm_num)
  have hhead : 0 ≤ max (36 - cm) 0 * 0.4 := mul_nonneg (le_max_right _ _) (by norm_num)
  have hkey : depthRankBonus rank ≤ calculateBreakoutScore cm cf im rank om ofp oc := by
    unfold calculateBreakoutScore
    rcases om with _ | om <;> rcases ofp with _ | ofp <;> dsimp only <;>
      [skip; skip; skip;
       exact le_add_of_le_of_nonneg
         (le_add_of_le_of_nonneg
           (le_add_of_le_of_nonneg le_rfl
             (le_min (le_max_right _ _) (by norm_num))) hprod) hhead] <;>
      exact le_add_of_le_of_nonneg
        (le_add_of_le_of_nonneg (le_add_of_le_of_nonneg le_rfl le_rfl) hprod) hhead
  refine ⟨hkey, le_trans (le_trans (by norm_num) (hb rank)) hkey, rfl, rfl, rfl, rfl, ?_⟩
  intro r hr
  unfold depthRankBonus
  split_ifs <;> first | rfl | (exfalso; omega)

/-- C1 witness: the score floor evaluated at a concrete input. -/
theorem breakout_c1_score_floor_witness :
    depthRankBonus 1 ≤ calculateBreakoutScore 30 20 30 1 none none 0 ∧
    0 ≤ calculateBreakoutScore 30 20 30 1 none none 0 ∧
    depthRankBonus 1 = 35 ∧ depthRankBonus 2 = 25 ∧ depthRankBonus 3 = 15 ∧
    depthRankBonus 4 = 8 ∧ (∀ r : ℕ, 5 ≤ r → depthRankBonus r = 4) :=
  breakout_c1_score_floor 30 20 30 1 none none 0 (by norm_num)

/-- C6: the minutes-boost estimator returns `max(0, opp_min - candidate_avg)`
when opportunity data is non-null, otherwise
`injured_avg * max(0.35 - (rank-1)*0.10, 0.10)`, and (for a non-negative
injured average) the result is never negative, including when
`opp_min < candidate_avg`. -/
theorem breakout_c6_boost (im cm : ℚ) (om : Option ℚ) (rank size : ℕ)
    (him : 0 ≤ im) :
    (∀ o : ℚ, om = some o → estimateMinBoost im cm om rank size = max 0 (o - cm)) ∧
    (om = none → estimateMinBoost im cm om rank size =
      im * max (0.35 - ((rank : ℚ) - 1) * 0.10) 0.10) ∧
    0 ≤ estimateMinBoost im cm om rank size := by
  refine ⟨?_, ?_, ?_⟩
  · rintro o rfl
    rfl
  · rintro rfl
    rfl
  · rcases om with _ | o
    · show 0 ≤ im * max (0.35 - ((rank : ℚ) - 1) * 0.10) 0.10
      have h1 : (0.10 : ℚ) ≤ max (0.35 - ((rank : ℚ) - 1) * 0.10) 0.10 := le_max_right _ _
      exact mul_nonneg him (le_trans (by norm_num) h1)
    · exact le_max_left _ _

/-- C6 witness: the boost estimator evaluated at a concrete input on both
branches (opportunity average below the candidate average still yields a
non-negative boost). -/
theorem breakout_c6_boost_witness :
    ((∀ o : ℚ, (some (15 : ℚ) : Option ℚ) = some o →
        estimateMinBoost 30 20 (some 15) 1 2 = max 0 (o - 20)) ∧
      ((some (15 : ℚ) : Option ℚ) = none → estimateMinBoost 30 20 (some 15) 1 2 =
        30 * max (0.35 - ((1 : ℕ) - 1 : ℚ) * 0.10) 0.10) ∧
      0 ≤ estimateMinBoost 30 20 (some 15) 1 2) ∧
    0 ≤ estimateMinBoost 30 20 none 3 2 :=
  ⟨breakout_c6_boost 30 20 (some 15) 1 2 (by norm_num),
   (breakout_c6_boost 30 20 none 3 2 (by norm_num)).2.2⟩

/-- C9: for a candidate with no game rows at all (a `games_played = 0`
candidate), the opportunity validator returns `(none, none, 0)`; and the
pipeline's games-played divisions are guarded so that a zero games-played
input yields average 0 rather than a division error. -/
theorem breakout_c9_zero_games (gs : List GameStat) (cand : ℕ) (cavg : ℚ)
    (team : String) (peers : List ℕ) (asOf lb : ℤ)
    (h : ∀ g ∈ gs, g.player ≠ cand) :
    validateOpportunities gs cand cavg team peers asOf lb = (none, none, 0) ∧
    (∀ m : ℚ, avgOf m 0 = 0) := by
  constructor
  · have hhu : highUsageGames gs cand cavg team asOf lb = [] := by
      unfold highUsageGames
      rw [List.filter_eq_nil]
      intro g hg
      simp only [decide_eq_true_eq, not_and]
      intro hp
      exact absurd hp (h g hg)
    unfold validateOpportunities
    by_cases hp : peers = []
    · rw [if_pos hp]
    · simp only [if_neg hp, hhu, if_pos]
  · intro m
    simp [avgOf]

/-- C9 witness: a concrete game log containing no rows for the candidate. -/
theorem breakout_c9_zero_games_witness :
    validateOpportunities [⟨2, "BOS", 50, 30, 40⟩] 1 0 "BOS" [2] 100 120 =
      (none, none, 0) ∧
    (∀ m : ℚ, avgOf m 0 = 0) :=
  breakout_c9_zero_games [⟨2, "BOS", 50, 30, 40⟩] 1 0 "BOS" [2] 100 120 (by decide)

/-- C2: the validated opportunity games are exactly the candidate's games on
the team with date in `[as_of - lookback, as_of)`, minutes at least
`max(candidate_avg * 1.25, 20)`, and at least one position peer without a
box-score row on that date; and whenever the validator returns non-null
values they are the arithmetic means of minutes and fantasy points over
exactly this set of games, with its true count. -/
theorem breakout_c2_validated_characterization (gs : List GameStat) (cand : ℕ)
    (cavg : ℚ) (team : String) (peers : List ℕ) (asOf lb : ℤ) :
    (∀ g : GameStat, g ∈ validatedGames gs cand cavg team peers asOf lb ↔
      (g ∈ gs ∧ g.player = cand ∧ g.team = team ∧ asOf - lb ≤ g.game_date ∧
        g.game_date < asOf ∧
        max (cavg * HIGH_USAGE_MULTIPLIER) HIGH_USAGE_MIN_FLOOR ≤ g.min ∧
        ∃ p ∈ peers, ¬ ∃ r ∈ gs, r.player = p ∧ r.game_date = g.game_date)) ∧
    List.Sublist (validatedGames gs cand cavg team peers asOf lb) gs ∧
    (∀ (m f : ℚ) (n : ℕ),
      validateOpportunities gs cand cavg team peers asOf lb = (some m, some f, n) →
      m = ((validatedGames gs cand cavg team peers asOf lb).map (fun g => g.min)).sum / n ∧
      f = ((validatedGames gs cand cavg team peers asOf lb).map (fun g => g.fpts)).sum / n ∧
      n = (validatedGames gs cand cavg team peers asOf lb).length) := by
  refine ⟨?_, ?_, ?_⟩
  · intro g
    unfold validatedGames highUsageGames peerAbsent
    simp only [List.mem_filter, decide_eq_true_eq]
    tauto
  · exact (List.filter_sublist _).trans (List.filter_sublist _)
  · intro m f n h
    unfold validateOpportunities at h
    by_cases hp : peers = []
    · rw [if_pos hp] at h
      cases h
      -- unreachable: (none, none, 0) = (some m, ...)
    · simp only [if_neg hp] at h
      by_cases hhu : highUsageGames gs cand cavg team asOf lb = []
      · rw [if_pos hhu] at h
        cases h
      · simp only [if_neg hhu] at h
        by_cases hv : (validatedGames gs cand cavg team peers asOf lb).length < MIN_OPP_SAMPLES
        · rw [if_pos hv] at h
          cases h
        · simp only [if_neg hv, Prod.mk.injEq, Option.some_inj] at h
          obtain ⟨hm, hf, hn⟩ := h
          subst hn
          exact ⟨hm.symm, hf.symm, rfl⟩

/-- C2 witness: the means and count returned for a concrete game log with two
validated opportunity games (minutes 30 and 40, fantasy points 42 and 50). -/
theorem breakout_c2_validated_characterization_witness :
    (35 : ℚ) = ((validatedGames gsW 1 10 "BOS" [2] 100 120).map (fun g => g.min)).sum /
        ((2 : ℕ) : ℚ) ∧
    (46 : ℚ) = ((validatedGames gsW 1 10 "BOS" [2] 100 120).map (fun g => g.fpts)).sum /
        ((2 : ℕ) : ℚ) ∧
    (2 : ℕ) = (validatedGames gsW 1 10 "BOS" [2] 100 120).length :=
  (breakout_c2_validated_characterization gsW 1 10 "BOS" [2] 100 120).2.2 35 46 2
    (by with_unfolding_all decide)

/-- C3: the validator returns `(none, none, 0)` whenever the peer set is
empty or fewer than `MIN_OPP_SAMPLES = 2` validated games remain; whenever it
returns a non-null average it returns the means together with the true
validated-game count, which is at least 2. -/
theorem breakout_c3_min_samples (gs : List GameStat) (cand : ℕ) (cavg : ℚ)
    (team : String) (peers : List ℕ) (asOf lb : ℤ) :
    (peers = [] → validateOpportunities gs cand cavg team peers asOf lb = (none, none, 0)) ∧
    ((validatedGames gs cand cavg team peers asOf lb).length < MIN_OPP_SAMPLES →
      validateOpportunities gs cand cavg team peers asOf lb = (none, none, 0)) ∧
    (∀ m : ℚ, (validateOpportunities gs cand cavg team peers asOf lb).1 = some m →
      validateOpportunities gs cand cavg team peers asOf lb =
        (some (((validatedGames gs cand cavg team peers asOf lb).map (fun g => g.min)).sum /
            ((validatedGames gs cand cavg team peers asOf lb).length : ℚ)),
         some (((validatedGames gs cand cavg team peers asOf lb).map (fun g => g.fpts)).sum /
            ((validatedGames gs cand cavg team peers asOf lb).length : ℚ)),
         (validatedGames gs cand cavg team peers asOf lb).length) ∧
      MIN_OPP_SAMPLES ≤ (validatedGames gs cand cavg team peers asOf lb).length) := by
  refine ⟨?_, ?_, ?_⟩
  · intro hp
    unfold validateOpportunities
    rw [if_pos hp]
  · intro hv
    unfold validateOpportunities
    by_cases hp : peers = []
    · rw [if_pos hp]
    · simp only [if_neg hp]
      by_cases hhu : highUsageGames gs cand cavg team asOf lb = []
      · rw [if_pos hhu]
      · simp only [if_neg hhu, if_pos hv]
  · intro m h
    unfold validateOpportunities at h ⊢
    by_cases hp : peers = []
    · rw [if_pos hp] at h
      cases h
    · simp only [if_neg hp] at h ⊢
      by_cases hhu : highUsageGames gs cand cavg team asOf lb = []
      · rw [if_pos hhu] at h
        cases h
      · simp only [if_neg hhu] at h ⊢
        by_cases hv : (validatedGames gs cand cavg team peers asOf lb).length < MIN_OPP_SAMPLES
        · rw [if_pos hv] at h
          cases h
        · simp only [if_neg hv] at h ⊢
          exact ⟨trivial, le_of_not_lt hv⟩

/-- C3 witness: the non-null branch at a concrete game log (count 2), and the
empty-peer-set branch at the same log. -/
theorem breakout_c3_min_samples_witness :
    (validateOpportunities gsW 1 10 "BOS" [2] 100 120 =
      (some (((validatedGames gsW 1 10 "BOS" [2] 100 120).map (fun g => g.min)).sum /
          ((validatedGames gsW 1 10 "BOS" [2] 100 120).length : ℚ)),
       some (((validatedGames gsW 1 10 "BOS" [2] 100 120).map (fun g => g.fpts)).sum /
          ((validatedGames gsW 1 10 "BOS" [2] 100 120).length : ℚ)),
       (validatedGames gsW 1 10 "BOS" [2] 100 120).length) ∧
      MIN_OPP_SAMPLES ≤ (validatedGames gsW 1 10 "BOS" [2] 100 120).length) ∧
    validateOpportunities gsW 1 10 "BOS" [] 100 120 = (none, none, 0) :=
  ⟨(breakout_c3_min_samples gsW 1 10 "BOS" [2] 100 120).2.2 35 (by with_unfolding_all decide),
   (breakout_c3_min_samples gsW 1 10 "BOS" [] 100 120).1 rfl⟩

theorem mem_latestInjuries_iff (db : DB) (asOf : ℤ) (i : InjuryRow) :
    i ∈ latestInjuries db asOf ↔
      i ∈ db.injuries ∧ i.report_date ≤ asOf ∧
      (∀ j ∈ db.injuries, j.player = i.player → j.report_date ≤ asOf →
        j.report_date ≤ i.report_date) ∧
      (i.status = "Out" ∨ i.status = "Doubtful") := by
  unfold latestInjuries
  simp only [List.mem_filter, decide_eq_true_eq]

theorem findPlayer_some (l : List PlayerRow) (p : ℕ) (pl : PlayerRow)
    (h : findPlayer l p = some pl) : pl ∈ l ∧ pl.id = p := by
  induction l with
  | nil => cases h
  | cons x xs ih =>
    unfold findPlayer at h
    by_cases hx : x.id = p
    · rw [if_pos hx] at h
      injection h with h2
      subst h2
      exact ⟨List.mem_cons_self x xs, hx⟩
    · rw [if_neg hx] at h
      obtain ⟨hm, hid⟩ := ih h
      exact ⟨List.mem_cons_of_mem x hm, hid⟩

theorem findPlayer_isSome_of (l : List PlayerRow) (p : ℕ)
    (h : ∃ pl ∈ l, pl.id = p) : ∃ pl', findPlayer l p = some pl' := by
  induction l with
  | nil =>
    obtain ⟨pl, hm, _⟩ := h
    cases hm
  | cons x xs ih =>
    unfold findPlayer
    by_cases hx : x.id = p
    · exact ⟨x, if_pos hx⟩
    · rw [if_neg hx]
      apply ih
      obtain ⟨pl, hm, hid⟩ := h
      rcases List.mem_cons.1 hm with rfl | hm'
      · exact absurd hid hx
      · exact ⟨pl, hm', hid⟩

/-- C4 counterexample: in `dbStale`, player 1's latest injury is `Out` and
their own most recent season-stats row passes both prominence thresholds
(25 gp, 32 avg minutes), yet the query returns no row for player 1, because
player 1 has no season-stats row at the globally latest stats date. -/
theorem breakout_c4_counterexample :
    specProminentMember dbStale 100 1 ∧
    1 ∉ (getProminentInjuredPlayers dbStale 100).map (fun i => i.player_id) := by
  with_unfolding_all decide

/-- C4 amended: the prominent-injured query returns exactly the players whose
latest injury record on or before `as_of_date` has status Out or Doubtful and
who have a season-stats row at the single globally latest stats date (not
their own most recent row) with `gp ≥ 20` and average minutes `≥ 28`, joined
to an existing players row. -/
theorem breakout_c4_amended (db : DB) (asOf : ℤ) (p : ℕ) :
    p ∈ (getProminentInjuredPlayers db asOf).map (fun i => i.player_id) ↔
      ((∃ i ∈ db.injuries, i.player = p ∧ i.report_date ≤ asOf ∧
          (∀ j ∈ db.injuries, j.player = p → j.report_date ≤ asOf →
            j.report_date ≤ i.report_date) ∧
          (i.status = "Out" ∨ i.status = "Doubtful")) ∧
        (∃ s ∈ db.seasonStats, s.player = p ∧
          latestStatsDate db = some s.as_of_date ∧ PROMINENT_MIN_GP ≤ s.gp ∧
          PROMINENT_MIN_THRESHOLD ≤ avgOf s.minTot s.gp) ∧
        (∃ pl ∈ db.players, pl.id = p)) := by
  constructor
  · intro h
    obtain ⟨info, hinfo, hid⟩ := List.mem_map.1 h
    unfold getProminentInjuredPlayers at hinfo
    by_cases hlat : latestInjuries db asOf = []
    · simp [hlat] at hinfo
    · simp only [if_neg hlat] at hinfo
      rcases hld : latestStatsDate db with _ | ld <;> rw [hld] at hinfo
      · cases hinfo
      · rw [List.mem_filterMap] at hinfo
        obtain ⟨s, hs, hsome⟩ := hinfo
        simp only [Option.ite_none_right_eq_some, Option.bind_eq_some,
          Option.ite_none_left_eq_some, Option.some_inj] at hsome
        obtain ⟨⟨⟨i, hiLat, hip⟩, hsd, hgp⟩, pl, hfp, h28, hrec⟩ := hsome
        have hsp : s.player = p := by
          rw [← hid, ← hrec]
        obtain ⟨hiI, hile, hmax, hst⟩ := (mem_latestInjuries_iff db asOf i).1 hiLat
        obtain ⟨hplI, hplid⟩ := findPlayer_some db.players s.player pl hfp
        refine ⟨⟨i, hiI, hip.trans hsp, hile, ?_, hst⟩,
          ⟨s, hs, hsp, ?_, hgp, le_of_not_lt h28⟩, ⟨pl, hplI, hplid.trans hsp⟩⟩
        · intro j hj hjp hjle
          exact hmax j hj (by rw [hjp, hip, hsp]) hjle
        · simp [hld, hsd]
  · rintro ⟨⟨i, hiI, hip, hile, hmax, hst⟩, ⟨s, hsI, hsp, hld, hgp, h28⟩,
      ⟨pl, hplI, hplid⟩⟩
    have hiLat : i ∈ latestInjuries db asOf := by
      refine (mem_latestInjuries_iff db asOf i).2 ⟨hiI, hile, ?_, hst⟩
      intro j hj hjp hjle
      exact hmax j hj (by rw [hjp, hip]) hjle
    have hlat : latestInjuries db asOf ≠ [] := List.ne_nil_of_mem hiLat
    obtain ⟨pl', hfp⟩ := findPlayer_isSome_of db.players s.player
      ⟨pl, hplI, by rw [hplid, hsp]⟩
    unfold getProminentInjuredPlayers
    simp only [if_neg hlat, hld]
    apply List.mem_map.2
    refine ⟨(⟨s.player, pl'.name, s.team, pl'.position.getD "",
        avgOf s.minTot s.gp, avgOf s.fptsTot s.gp, s.gp,
        ((lookupInjury (latestInjuries db asOf) s.player).map
          (fun i => i.status)).getD "Out",
        ((lookupInjury (latestInjuries db asOf) s.player).map
          (fun i => i.expected_return)).getD none⟩ : InjuredInfo),
      List.mem_filterMap.2 ⟨s, hsI, ?_⟩, hsp⟩
    rw [if_pos ⟨⟨i, hiLat, hip.trans hsp.symm⟩, rfl, hgp⟩, hfp]
    show (if avgOf s.minTot s.gp < PROMINENT_MIN_THRESHOLD then none else _) = _
    rw [if_neg (not_lt.2 h28)]

/-- C5 (code bug): in `dbOddPos` the injured player's position "XX" maps to
no adjacency set (so the fallback-to-all-positions path is taken), and
teammate 2 passes the games-played and average-minutes thresholds, yet the
depth chart is empty: the fallback only admits the seven canonical position
strings, so the candidate's nonempty position "PF/C" is excluded — contrary
to the claim (and the source comment) that all rotation candidates are
included. -/
theorem breakout_c5_unknown_position_exclusion :
    positionAdjacency ("XX".toUpper) = [] ∧
    TEAMMATE_MIN_GP ≤ (10 : ℕ) ∧
    TEAMMATE_MIN_THRESHOLD ≤ avgOf 150 10 ∧
    (⟨2, "BOS", 50, 10, 150, 200⟩ : SeasonRow) ∈ dbOddPos.seasonStats ∧
    findPlayer dbOddPos.players 2 = some ⟨2, "B", some "PF/C"⟩ ∧
    buildPositionDepthChart dbOddPos "BOS" 1 "XX" 50 = [] := by
  with_unfolding_all decide

/-- C7 counterexample: in `dbShared`, player 3 is in the depth chart of
injured player 1 (so the pair (1, 3) is processed), yet after the run no
stored row has injured player 1 and beneficiary 3 — the row was overwritten
by the pair (2, 3) for the same beneficiary and date. -/
theorem breakout_c7_counterexample :
    1 ∈ (getProminentInjuredPlayers dbShared 100).map (fun i => i.player_id) ∧
    3 ∈ (buildPositionDepthChart dbShared "BOS" 1 "C" 50).map (fun c => c.player_id) ∧
    (∀ r ∈ execute dbShared 100 7 [],
      ¬(r.injured_player_id = 1 ∧ r.beneficiary_player_id = 3)) := by
  with_unfolding_all decide

/-- C7 amended: starting from a table with unique keys, the run leaves the
table with at most one row per `(beneficiary_player_id, as_of_date)`; the
orchestrator emits one upsert per processed (injured, candidate) pair, and
after the run each processed pair's beneficiary has a stored row for the run
date — but when one beneficiary appears under several injured players, the
later pair's upsert overwrites the earlier pair's row, so a stored row per
pair does not survive. -/
theorem breakout_c7_amended (db : DB) (asOf : ℤ) (rid : ℕ) (tbl : List CandRow)
    (h : uniqKeys tbl) :
    uniqKeys (execute db asOf rid tbl) ∧
    (∀ lsd : ℤ, latestStatsDate db = some lsd →
      ∀ inj ∈ getProminentInjuredPlayers db asOf,
      ∀ cand ∈ buildPositionDepthChart db inj.team_id inj.player_id inj.position lsd,
        (∃ ρ ∈ emittedRows db asOf rid,
          ρ.injured_player_id = inj.player_id ∧
          ρ.beneficiary_player_id = cand.player_id ∧ ρ.as_of_date = asOf) ∧
        (∃ r ∈ execute db asOf rid tbl,
          r.beneficiary_player_id = cand.player_id ∧ r.as_of_date = asOf)) := by
  constructor
  · rw [execute_eq_applyUpserts]
    exact applyUpserts_uniqKeys _ _ h
  · intro lsd hlsd inj hinj cand hcand
    have hρfor := mem_emittedFor_of db asOf rid lsd inj cand hcand
    have hρrows : mkCandRow db asOf rid inj
        (buildPositionDepthChart db inj.team_id inj.player_id inj.position lsd).length
        (inj.player_id ::
          (buildPositionDepthChart db inj.team_id inj.player_id inj.position lsd).map
            (fun c => c.player_id)) cand ∈ emittedRows db asOf rid := by
      unfold emittedRows
      rw [hlsd]
      exact mem_emitList_of db asOf rid lsd _ inj hinj _ hρfor
    constructor
    · exact ⟨_, hρrows, rfl, rfl, rfl⟩
    · have hkey := key_mem_applyUpserts _ tbl _ hρrows
      rw [← execute_eq_applyUpserts] at hkey
      obtain ⟨r, hr, hkeq⟩ := List.mem_map.1 hkey
      exact ⟨r, hr, congrArg Prod.fst hkeq, congrArg Prod.snd hkeq⟩

/-- C7 witness: the amended theorem instantiated on the concrete database
with a shared beneficiary, starting from the empty table. -/
theorem breakout_c7_amended_witness :
    uniqKeys (execute dbShared 100 7 []) ∧
    (∀ lsd : ℤ, latestStatsDate dbShared = some lsd →
      ∀ inj ∈ getProminentInjuredPlayers dbShared 100,
      ∀ cand ∈ buildPositionDepthChart dbShared inj.team_id inj.player_id inj.position lsd,
        (∃ ρ ∈ emittedRows dbShared 100 7,
          ρ.injured_player_id = inj.player_id ∧
          ρ.beneficiary_player_id = cand.player_id ∧ ρ.as_of_date = 100) ∧
        (∃ r ∈ execute dbShared 100 7 [],
          r.beneficiary_player_id = cand.player_id ∧ r.as_of_date = 100)) :=
  breakout_c7_amended dbShared 100 7 [] (by simp [uniqKeys])

set_option maxRecDepth 8000 in
/-- C8 counterexample: with different run ids (as two real runs have), the
stored table after the second run is not literally identical to the table
after the first — the audit `pipeline_run_id` column differs. -/
theorem breakout_c8_counterexample :
    execute dbShared 100 2 (execute dbShared 100 1 []) ≠ execute dbShared 100 1 [] := by
  with_unfolding_all decide

/-- C8 amended: running the detection twice for the same `as_of_date` on
identical read inputs is idempotent up to the audit run id: with the same
run id the stored table is literally unchanged (no duplicate rows, identical
rows and scores), and with a different second run id the tables agree on
every column except `pipeline_run_id`. -/
theorem breakout_c8_amended (db : DB) (asOf : ℤ) (r1 r2 : ℕ) (tbl : List CandRow) :
    execute db asOf r1 (execute db asOf r1 tbl) = execute db asOf r1 tbl ∧
    (execute db asOf r2 (execute db asOf r1 tbl)).map stripRunId =
      (execute db asOf r1 tbl).map stripRunId := by
  constructor
  · simp only [execute_eq_applyUpserts]
    exact applyUpserts_idem _ _
  · simp only [execute_eq_applyUpserts, map_stripRunId_applyUpserts,
      map_stripRunId_emittedRows]
    exact applyUpserts_idem _ _

/-- C10 (implicit): every row the orchestrator emits carries a strictly
positive projected minutes boost: the boost before rounding is at least 2.8
(= 28.0 × 0.10; on the empirical path even at least 4), and the stored
rounded value is also at least 2.8 and strictly positive. -/
theorem breakout_c10_boost_floor (db : DB) (asOf : ℤ) (rid : ℕ) (ρ : CandRow)
    (h : ρ ∈ emittedRows db asOf rid) :
    (∃ b : ℚ, ρ.projected_min_boost = roundTo1 b ∧ (14/5 : ℚ) ≤ b ∧ 0 < b) ∧
    (14/5 : ℚ) ≤ ρ.projected_min_boost ∧ 0 < ρ.projected_min_boost := by
  unfold emittedRows at h
  rcases hld : latestStatsDate db with _ | lsd <;> simp only [hld] at h
  · cases h
  · obtain ⟨inj, hinj, hfor⟩ := mem_emitList_inv db asOf rid lsd _ ρ h
    obtain ⟨cand, hcand, rfl⟩ := mem_emittedFor_inv db asOf rid lsd inj ρ hfor
    have h28 := prominent_avg_min_ge db asOf inj hinj
    have h12 := chart_avg_min_ge db inj.team_id inj.player_id inj.position lsd cand hcand
    simp only [PROMINENT_MIN_THRESHOLD] at h28
    simp only [TEAMMATE_MIN_THRESHOLD] at h12
    have hboost : (14/5 : ℚ) ≤ estimateMinBoost inj.avg_min cand.avg_min
        (validateOpportunities db.gameStats cand.player_id cand.avg_min inj.team_id
          ((inj.player_id :: (buildPositionDepthChart db inj.team_id inj.player_id
            inj.position lsd).map (fun c => c.player_id)).filter
            (fun p => p ≠ cand.player_id)) asOf 120).1
        cand.depth_rank
        (buildPositionDepthChart db inj.team_id inj.player_id inj.position lsd).length := by
      rcases hv : (validateOpportunities db.gameStats cand.player_id cand.avg_min
          inj.team_id ((inj.player_id :: (buildPositionDepthChart db inj.team_id
            inj.player_id inj.position lsd).map (fun c => c.player_id)).filter
            (fun p => p ≠ cand.player_id)) asOf 120).1 with _ | o
      · rw [hv]
        simp only [estimateMinBoost]
        have hs : (0.10 : ℚ) ≤ max (0.35 - ((cand.depth_rank : ℚ) - 1) * 0.10) 0.10 :=
          le_max_right _ _
        nlinarith [mul_nonneg
          (by linarith : (0 : ℚ) ≤ inj.avg_min - 28)
          (by linarith : (0 : ℚ) ≤ max (0.35 - ((cand.depth_rank : ℚ) - 1) * 0.10) 0.10 - 0.10)]
      · rw [hv]
        simp only [estimateMinBoost]
        have hge := validator_oppMin_ge db.gameStats cand.player_id cand.avg_min
          inj.team_id _ asOf 120 o hv
        simp only [HIGH_USAGE_MULTIPLIER, HIGH_USAGE_MIN_FLOOR] at hge
        have h125 : cand.avg_min * 1.25 ≤ o := le_trans (le_max_left _ _) hge
        have h20 : (20 : ℚ) ≤ o := le_trans (le_max_right _ _) hge
        have hd : (14/5 : ℚ) ≤ o - cand.avg_min := by
          rcases le_total cand.avg_min 16 with ha | ha
          · linarith
          · nlinarith
        exact le_trans hd (le_max_right _ _)
    have hle : (14/5 : ℚ) ≤ (mkCandRow db asOf rid inj
        (buildPositionDepthChart db inj.team_id inj.player_id inj.position lsd).length
        (inj.player_id :: (buildPositionDepthChart db inj.team_id inj.player_id
          inj.position lsd).map (fun c => c.player_id)) cand).projected_min_boost :=
      le_roundTo1_of_le _ hboost
    exact ⟨⟨_, rfl, hboost, by linarith⟩, hle, by linarith⟩

set_option maxRecDepth 8000 in
/-- C10 witness: the first row emitted on the concrete shared-beneficiary
database has a stored projected boost of at least 2.8. -/
theorem breakout_c10_boost_floor_witness :
    (∃ b : ℚ, row0.projected_min_boost = roundTo1 b ∧ (14/5 : ℚ) ≤ b ∧ 0 < b) ∧
    (14/5 : ℚ) ≤ row0.projected_min_boost ∧ 0 < row0.projected_min_boost :=
  breakout_c10_boost_floor dbShared 100 7 row0 (by with_unfolding_all decide)
